import Mathlib

/-!
Verification of the routing, rate-limiting and dispatch engine of
`mpgameserver/http_server.py` against its natural-language specification.

The Python source is shallowly embedded: each Python class becomes a Lean
structure, each method a Lean function on that structure (state passed
explicitly), and each `raise` becomes an `Except`/`Option` failure value.
The ambient wall clock (`time.time()*1000`) and the process working
directory (`os.getcwd()`) are passed as explicit parameters.  Python `int`
is modelled as `Int` (or `Nat` where the source value is a count or a
time), Python `str`/`bytes` as `String`.
-/

/-! ## Python string primitives

The embedding uses its own executable models of the Python `str`/`bytes`
operations the source calls (`split`, `replace` with one-character
arguments, `startswith`, `endswith`, indexing, `upper`), defined by
structural recursion over the character list of a `String`. -/

/-- `s.split(sep)` for a one-character separator: splitting the empty
string gives `[""]`, adjacent separators give empty fields. -/
def pySplitCharAux (sep : Char) : List Char → List Char → List String
  | [], acc => [String.mk acc.reverse]
  | c :: cs, acc =>
    if c = sep then String.mk acc.reverse :: pySplitCharAux sep cs []
    else pySplitCharAux sep cs (c :: acc)

def pySplitChar (sep : Char) (s : String) : List String :=
  pySplitCharAux sep s.data []

/-- `s.replace(old, new)` for one-character arguments. -/
def pyReplaceChar (a b : Char) (s : String) : String :=
  String.mk (s.data.map (fun c => if c = a then b else c))

/-- `s.startswith(prefix)`. -/
def pyStartsWith (s pre : String) : Bool :=
  pre.data.isPrefixOf s.data

/-- `s.endswith(suffix)`. -/
def pyEndsWith (s suf : String) : Bool :=
  suf.data.isSuffixOf s.data

/-- `s[-1]` (only consulted on nonempty strings; the default is
unreachable there). -/
def pyLastChar (s : String) : Char :=
  s.data.getLastD ' '

/-- `s[1:]`. -/
def pyDropFirst (s : String) : String :=
  String.mk (s.data.drop 1)

/-- `s[1:-1]`. -/
def pyInner (s : String) : String :=
  String.mk ((s.data.drop 1).dropLast)

/-- `bytes.upper()` / `str.upper()` on ASCII text. -/
def pyUpper (s : String) : String :=
  String.mk (s.data.map Char.toUpper)

/-- `sep.join(parts)`. -/
def joinSep (sep : String) : List String → String
  | [] => ""
  | [x] => x
  | x :: xs => x ++ sep ++ joinSep sep xs

/-! ## RollingCounter (http_server.py lines 274-316)

`RollingCounter.__init__(interval_ms, bins=4)` stores `interval_ms // bins`
as the per-bin width; `increment` is driven by `ms = int(time.time()*1000)`,
which we pass in as the `ms` argument.  `self._counts[-1] += 1` raises
`IndexError` when `_counts` is empty (only possible while `index` equals the
stored index and no bin exists); that failure is modelled as `none`. -/

structure RollingCounter where
  interval_ms : Nat
  current_index : Nat
  bins : Nat
  counts : List Nat
  count : Nat
  deriving Repr, DecidableEq

def RollingCounter.init (interval_ms : Nat) (bins : Nat) : RollingCounter :=
  { interval_ms := interval_ms / bins
    current_index := 0
    bins := bins
    counts := []
    count := 0 }

/-- `self._counts.pop(0)` applied while `len > bins`: drop from the front
until at most `bins` entries remain. -/
def dropToLen (l : List Nat) (n : Nat) : List Nat :=
  l.drop (l.length - n)

/-- Increment the last element of a list (`self._counts[-1] += 1`);
`none` models the `IndexError` on an empty list. -/
def incrLast : List Nat → Option (List Nat)
  | [] => none
  | [x] => some [x + 1]
  | x :: xs => (incrLast xs).map (x :: ·)

/-- `RollingCounter.increment` at wall-clock time `ms` (milliseconds).
Note: in the history-reset branch (`index - self._current_index > self._bins`)
the source does NOT update `self._current_index`. Python's `index - current`
may be negative there; a negative value is never `> self._bins` (with
`bins = 4`), which truncated `Nat` subtraction reproduces. -/
def RollingCounter.increment (rc : RollingCounter) (ms : Nat) :
    Option (RollingCounter × Nat) :=
  let index := ms / rc.interval_ms
  let rc :=
    if index ≠ rc.current_index then
      if index - rc.current_index > rc.bins then
        { rc with counts := [0] }
      else
        let counts := dropToLen (rc.counts ++ [0]) rc.bins
        { rc with counts := counts, current_index := index }
    else rc
  match incrLast rc.counts with
  | none => none
  | some counts =>
    let total := counts.foldl (· + ·) 0
    some ({ rc with counts := counts, count := total }, total)

/-! ## CacheDict (http_server.py lines 205-225)

A `CacheDict` is an `OrderedDict` subclass: entries are kept in insertion
order (front = oldest), `__setitem__` moves the key to the most-recent end
and then evicts from the front while the length exceeds `cache_len`, and
`__getitem__` moves the accessed key to the most-recent end.  `__contains__`
is inherited from `dict` and does not reorder.

`RateLimiter.__init__` constructs its caches with `CacheDict(capacity=capacity)`.
`cache_len` is a keyword-only parameter of `CacheDict.__init__`, so the
unknown keyword `capacity` falls into `**kwargs` and is forwarded to
`OrderedDict.__init__`, which interprets it as an initial item: the result
has `cache_len = 128` (the default) and starts with the single entry
`("capacity", capacity)`.  (Verified CPython behaviour.)  Values are
therefore heterogeneous: the spurious initial entry holds an `int`, the
real entries hold `RollingCounter` objects. -/

inductive CVal where
  | int (n : Int)
  | rc (c : RollingCounter)
  deriving Repr, DecidableEq

structure CacheDict where
  cache_len : Nat
  entries : List (String × CVal)
  deriving Repr, DecidableEq

/-- `CacheDict(capacity=c)`: `cache_len` keeps its default `128` and the
stray keyword becomes the initial item `("capacity", c)`. -/
def CacheDict.initCapacityKw (c : Int) : CacheDict :=
  { cache_len := 128, entries := [("capacity", CVal.int c)] }

/-- `key in d` (inherited `dict.__contains__`, no reordering). -/
def CacheDict.contains (d : CacheDict) (k : String) : Bool :=
  d.entries.any (fun p => p.1 = k)

/-- `d[key] = value`: store/overwrite, move to the most-recent end, then
evict from the least-recent front while the length exceeds `cache_len`. -/
def CacheDict.setitem (d : CacheDict) (k : String) (v : CVal) : CacheDict :=
  let es := d.entries.filter (fun p => p.1 ≠ k) ++ [(k, v)]
  { d with entries := es.drop (es.length - d.cache_len) }

/-- `d[key]`: return the value and move the key to the most-recent end;
`none` models `KeyError`. -/
def CacheDict.getitem (d : CacheDict) (k : String) : Option (CVal × CacheDict) :=
  match d.entries.find? (fun p => p.1 = k) with
  | none => none
  | some (_, v) =>
    some (v, { d with entries := d.entries.filter (fun p => p.1 ≠ k) ++ [(k, v)] })

/-- Overwrite the value stored at `k` without reordering (models in-place
mutation of the object already held by the dict). -/
def CacheDict.mutate (d : CacheDict) (k : String) (v : CVal) : CacheDict :=
  { d with entries := d.entries.map (fun p => if p.1 = k then (k, v) else p) }

/-! ## RateLimiter (http_server.py lines 318-334) -/

structure RateLimiter where
  counter : CacheDict
  blocked : CacheDict
  limit : Int
  interval_ms : Nat
  deriving Repr, DecidableEq

def RateLimiter.init (limit : Int) (interval_ms : Nat) (capacity : Int) :
    RateLimiter :=
  { counter := CacheDict.initCapacityKw capacity
    blocked := CacheDict.initCapacityKw capacity
    limit := limit
    interval_ms := interval_ms }

/-- `RateLimiter.insert(k)` at wall-clock time `ms`: lazily create the
per-key `RollingCounter` (bins=4), increment it (the `__getitem__` access
moves the key to the most-recent end; the counter object then mutates in
place), and report whether the total strictly exceeds the limit.
`none` models an uncaught exception (`IndexError` inside `increment`, or
`AttributeError` if the cached value is the stray `int`). -/
def RateLimiter.insert (rl : RateLimiter) (k : String) (ms : Nat) :
    Option (RateLimiter × Bool) :=
  let rl :=
    if rl.counter.contains k then rl
    else { rl with
            counter := rl.counter.setitem k
              (CVal.rc (RollingCounter.init rl.interval_ms 4)) }
  match rl.counter.getitem k with
  | none => none
  | some (CVal.int _, _) => none
  | some (CVal.rc c, d) =>
    match c.increment ms with
    | none => none
    | some (c', total) =>
      some ({ rl with counter := d.mutate k (CVal.rc c') }, (total : Int) > rl.limit)

/-- Repeated `insert` calls for one key, collecting the block decisions. -/
def RateLimiter.insertSeq (rl : RateLimiter) (k : String) :
    List Nat → Option (RateLimiter × List Bool)
  | [] => some (rl, [])
  | ms :: rest =>
    match rl.insert k ms with
    | none => none
    | some (rl', b) =>
      match rl'.insertSeq k rest with
      | none => none
      | some (rl'', bs) => some (rl'', b :: bs)

/-! ## Pattern compiler (http_server.py lines 567-620, `Router.patternToRegex`)

`patternToRegex` builds a Python regular-expression string from the url
pattern and compiles it with `re.compile`.  The string is a concatenation of
a fixed repertoire of fragments, one per pattern segment, plus the optional
trailing `\/?` and the anchors `^`/`$`.  We embed the construction as a list
of `Chunk`s — one constructor per fragment kind, in 1:1 correspondence with
the exact substrings the source appends — together with the literal string
each chunk contributes (used to model the source's `re_str != "^\\/"` test
verbatim).  The matcher below gives these chunks the semantics Python's
`re` gives the corresponding fragments (leftmost alternative, greedy
quantifiers with backtracking, `[^\/]` = any char except `/`, `.` = any
char except newline, and `$` matching at the end of the string or just
before a terminal newline).  Literal segments are matched as literal text,
which is exact for segments free of regex metacharacters (the form url
patterns take). -/

inductive Chunk where
  /-- a literal segment `part`, contributing `\/part` -/
  | lit (part : String)
  /-- a plain token `:name`, contributing `\/([^\/]+)` -/
  | plain
  /-- an optional token `:name?`, contributing `(?:\/([^\/]*)|\/)?` -/
  | opt
  /-- a greedy token `:name*`, contributing `(?:\/(.*)|\/)?` -/
  | star
  /-- a greedy token `:name+`, contributing `\/?(.+)` -/
  | plus
  /-- the trailing-slash tolerance fragment `\/?` -/
  | slashOpt
  deriving Repr, DecidableEq

/-- The exact regex substring each chunk contributes to `re_str`. -/
def Chunk.str : Chunk → String
  | .lit part => "\\/" ++ part
  | .plain => "\\/([^\\/]+)"
  | .opt => "(?:\\/([^\\/]*)|\\/)?"
  | .star => "(?:\\/(.*)|\\/)?"
  | .plus => "\\/?(.+)"
  | .slashOpt => "\\/?"

/-- The regex string contributed by a chunk list (the source appends the
fragments to `re_str` left to right). -/
def chunksStr : List Chunk → String
  | [] => ""
  | c :: cs => c.str ++ chunksStr cs

/-- `[part for part in pattern.split("/") if part]` -/
def splitPatternParts (pattern : String) : List String :=
  (pySplitChar '/' pattern).filter (fun p => p ≠ "")

/-- The token name `part[1:-1]` of a suffixed token segment. -/
def innerToken (part : String) : String :=
  pyInner part

/-- The segment-by-segment compilation loop of `patternToRegex`.  `final`
records whether an optional/greedy (`?`/`*`/`+`) token has been seen; a
second one raises `ValueError(pattern)`, modelled as `.error pattern`. -/
def compileParts (pattern : String) : List String → Bool →
    Except String (List Chunk × List String)
  | [], _ => .ok ([], [])
  | part :: rest, final =>
    if pyStartsWith part ":" then
      let c := pyLastChar part
      if c = '?' then
        if final then .error pattern
        else
          match compileParts pattern rest true with
          | .error e => .error e
          | .ok (cs, ts) => .ok (Chunk.opt :: cs, innerToken part :: ts)
      else if c = '*' then
        if final then .error pattern
        else
          match compileParts pattern rest true with
          | .error e => .error e
          | .ok (cs, ts) => .ok (Chunk.star :: cs, innerToken part :: ts)
      else if c = '+' then
        if final then .error pattern
        else
          match compileParts pattern rest true with
          | .error e => .error e
          | .ok (cs, ts) => .ok (Chunk.plus :: cs, innerToken part :: ts)
      else
        match compileParts pattern rest final with
        | .error e => .error e
        | .ok (cs, ts) => .ok (Chunk.plain :: cs, pyDropFirst part :: ts)
    else
      match compileParts pattern rest final with
      | .error e => .error e
      | .ok (cs, ts) => .ok (Chunk.lit part :: cs, ts)

/-- `Router.patternToRegex`: split the pattern, compile the segments, and —
mirroring `if re_str != "^\\/": re_str += "\\/?"` — append the
trailing-slash fragment unless the built string is exactly `^\/`. -/
def patternToRegex (pattern : String) : Except String (List Chunk × List String) :=
  match compileParts pattern (splitPatternParts pattern) false with
  | .error e => .error e
  | .ok (cs, ts) =>
    let cs := if "^" ++ chunksStr cs ≠ "^\\/" then cs ++ [Chunk.slashOpt] else cs
    .ok (cs, ts)

/-! ## Regex matcher

Backtracking matcher for the compiled chunk lists, with Python `re`
semantics: alternatives are tried left to right, quantifiers are greedy
(longest first), and the terminal `$` accepts either the end of the string
or a position just before a terminal `'\n'`.  `re_ptn.match(path)` returns
the group list (`m.groups()`) on success — one group per token chunk, in
order, `none` for a group that did not participate in the match. -/

/-- Try candidates in order, returning the first success (backtracking). -/
def firstSome {α β : Type} (f : α → Option β) : List α → Option β
  | [] => none
  | a :: as =>
    match f a with
    | some b => some b
    | none => firstSome f as

/-- "Try the first alternative, else the second" (backtracking order). -/
def orElse2 {β : Type} (x y : Option β) : Option β :=
  match x with
  | some r => some r
  | none => y

/-- "Try the first alternative, else the second, else the third". -/
def orElse3 {β : Type} (x y z : Option β) : Option β :=
  orElse2 x (orElse2 y z)

/-- `[n, n-1, ..., 0]`: greedy candidate lengths for a `*` quantifier. -/
def downFrom : Nat → List Nat
  | 0 => [0]
  | n + 1 => (n + 1) :: downFrom n

/-- Length of the longest prefix satisfying `p` (the maximal text a greedy
character-class quantifier can consume). -/
def runLen (p : Char → Bool) : List Char → Nat
  | [] => 0
  | c :: cs => if p c then runLen p cs + 1 else 0

/-- Characters matched by `[^\/]`. -/
def nonSlash (c : Char) : Bool := c ≠ '/'

/-- Characters matched by `.` (Python `re` without `DOTALL`). -/
def dotChar (c : Char) : Bool := c ≠ '\n'

/-- Match a chunk list against the characters of a path, producing the
captured group list on success.  The empty chunk list plays the role of the
terminal `$`: it accepts the empty remainder or a lone terminal newline. -/
def matchChunks : List Chunk → List Char → Option (List (Option (List Char)))
  | [], s => if s = [] ∨ s = ['\n'] then some [] else none
  | Chunk.lit part :: cs, s =>
    let l := '/' :: part.data
    if l.isPrefixOf s then matchChunks cs (s.drop l.length) else none
  | Chunk.plain :: cs, s =>
    match s with
    | '/' :: s' =>
      firstSome
        (fun k =>
          if k = 0 then none
          else (matchChunks cs (s'.drop k)).map (fun gs => some (s'.take k) :: gs))
        (downFrom (runLen nonSlash s'))
    | _ => none
  | Chunk.opt :: cs, s =>
    orElse3
      (match s with
       | '/' :: s' =>
         firstSome
           (fun k => (matchChunks cs (s'.drop k)).map (fun gs => some (s'.take k) :: gs))
           (downFrom (runLen nonSlash s'))
       | _ => none)
      (match s with
       | '/' :: s' => (matchChunks cs s').map (fun gs => none :: gs)
       | _ => none)
      ((matchChunks cs s).map (fun gs => none :: gs))
  | Chunk.star :: cs, s =>
    orElse3
      (match s with
       | '/' :: s' =>
         firstSome
           (fun k => (matchChunks cs (s'.drop k)).map (fun gs => some (s'.take k) :: gs))
           (downFrom (runLen dotChar s'))
       | _ => none)
      (match s with
       | '/' :: s' => (matchChunks cs s').map (fun gs => none :: gs)
       | _ => none)
      ((matchChunks cs s).map (fun gs => none :: gs))
  | Chunk.plus :: cs, s =>
    let tryTail := fun (t : List Char) =>
      firstSome
        (fun k =>
          if k = 0 then none
          else (matchChunks cs (t.drop k)).map (fun gs => some (t.take k) :: gs))
        (downFrom (runLen dotChar t))
    orElse2
      (match s with
       | '/' :: s' => tryTail s'
       | _ => none)
      (tryTail s)
  | Chunk.slashOpt :: cs, s =>
    orElse2
      (match s with
       | '/' :: s' => matchChunks cs s'
       | _ => none)
      (matchChunks cs s)

/-- `re_ptn.match(path)` for a compiled chunk list: the group list as
strings, or `none` when the path does not match. -/
def reMatch (cs : List Chunk) (path : String) : Option (List (Option String)) :=
  (matchChunks cs path.data).map (List.map (Option.map (fun l => String.mk l)))

/-! ## Response model (http_server.py lines 54-130)

`Response` and its subclasses `ErrorResponse`/`JsonResponse` are embedded
as one structure with a `kind` tag selecting the `_get_payload` override
(`SerializableResponse` delegates to an external serialization collaborator
and is outside the modelled core).  Payload values are modelled by `PyObj`;
gzip compression is modelled symbolically by the `PyByteSeq.gzip`
constructor (the claims never inspect compressed bytes).  Dict payloads in
the modelled pipeline are string-valued (`{'error': message}`), which is
the only dict shape the dispatcher constructs. -/

inductive PyByteSeq where
  /-- the UTF-8 bytes of a string -/
  | raw (s : String)
  /-- the gzip compression of a byte sequence -/
  | gzip (b : PyByteSeq)
  deriving Repr, DecidableEq

inductive PyObj where
  | pystr (s : String)
  | pybytes (b : PyByteSeq)
  | pydict (kvs : List (String × String))
  | pynone
  deriving Repr, DecidableEq

/-- Failure modes that escape the modelled functions as Python exceptions. -/
inductive PyErr where
  /-- `TypeError` raised by `request_response` on a non-Response value -/
  | typeError
  /-- any other uncaught runtime exception -/
  | runtimeError
  deriving Repr, DecidableEq

inductive RespKind where
  | base
  | error
  | json
  deriving Repr, DecidableEq

structure Resp where
  kind : RespKind
  status_code : Int
  headers : List (String × String)
  payload : PyObj
  compress : Bool
  deriving Repr, DecidableEq

/-- `dict.__setitem__` on a string-valued dict: overwrite in place if the
key exists (keeping its position), otherwise append. -/
def dictInsert (d : List (String × String)) (k v : String) :
    List (String × String) :=
  if d.any (fun p => p.1 = k) then
    d.map (fun p => if p.1 = k then (k, v) else p)
  else d ++ [(k, v)]

/-- `Response.__init__`: a `str` payload is encoded to UTF-8 bytes. -/
def Response.init (payload : PyObj) (status_code : Int)
    (headers : List (String × String)) (compress : Bool) : Resp :=
  let payload :=
    match payload with
    | PyObj.pystr s => PyObj.pybytes (PyByteSeq.raw s)
    | p => p
  { kind := RespKind.base, status_code := status_code, headers := headers
    payload := payload, compress := compress }

/-- `JsonResponse(obj, status_code)` (headers default to `{}`, `compress`
to `False`). -/
def JsonResponse.init (obj : PyObj) (status_code : Int) : Resp :=
  { Response.init obj status_code [] false with kind := RespKind.json }

/-- The `{'error': message}` payloads the dispatcher constructs. -/
def errObj (message : String) : PyObj :=
  PyObj.pydict [("error", message)]

/-- JSON string-escaping as performed by `json.dumps` (exact for the ASCII
strings the dispatcher emits). -/
def jsonEscapeChar (c : Char) : String :=
  if c = '\\' then "\\\\"
  else if c = '"' then "\\\""
  else if c = '\n' then "\\n"
  else if c = '\t' then "\\t"
  else if c = '\r' then "\\r"
  else String.mk [c]

def jsonQuote (s : String) : String :=
  "\"" ++ joinSep "" (s.data.map jsonEscapeChar) ++ "\""

/-- `json.dumps` on the modelled payload values (default separators);
`none` models the `TypeError` raised on a bytes payload. -/
def jsonDumps : PyObj → Option String
  | PyObj.pystr s => some (jsonQuote s)
  | PyObj.pynone => some "null"
  | PyObj.pydict kvs =>
    some ("\x7b" ++
      joinSep ", "
        (kvs.map (fun kv => jsonQuote kv.1 ++ ": " ++ jsonQuote kv.2)) ++
      "\x7d")
  | PyObj.pybytes _ => none

/-- `Response._get_payload`: with `compress` set, gzip the byte payload in
place and set the `Vary`/`Content-Encoding` headers (writing a non-bytes
object to the gzip stream raises `TypeError`); otherwise return the payload
unchanged.  Returns the mutated response together with the value returned. -/
def Response.getPayloadBase (r : Resp) : Except PyErr (Resp × PyObj) :=
  if r.compress then
    match r.payload with
    | PyObj.pybytes b =>
      let p := PyObj.pybytes (PyByteSeq.gzip b)
      let hs := dictInsert (dictInsert r.headers "Vary" "Accept-Encoding")
        "Content-Encoding" "gzip"
      Except.ok ({ r with payload := p, headers := hs }, p)
    | _ => Except.error PyErr.runtimeError
  else Except.ok (r, r.payload)

/-- `JsonResponse._get_payload`: run the base step, JSON-encode its result
with a trailing newline, and set `Content-Type`/`Content-Length` (the
encoded text is ASCII, so its byte length equals its character length). -/
def Response.getPayload (r : Resp) : Except PyErr (Resp × PyObj) :=
  match r.kind with
  | RespKind.base | RespKind.error => Response.getPayloadBase r
  | RespKind.json =>
    match Response.getPayloadBase r with
    | Except.error e => Except.error e
    | Except.ok (r', p) =>
      match jsonDumps p with
      | none => Except.error PyErr.runtimeError
      | some s =>
        let encoded := s ++ "\n"
        let hs := dictInsert
          (dictInsert r'.headers "Content-Type" "application/json")
          "Content-Length" (toString encoded.length)
        Except.ok ({ r' with headers := hs }, PyObj.pybytes (PyByteSeq.raw encoded))

/-! ## Request (http_server.py lines 737-785)

Only the fields the modelled pipeline consults are carried (client address,
method, path, headers, and the path captures filled in at dispatch time).
In the server flow the headers mapping is the `CaseInsensitiveDict` built in
`RequestFactory.process`: keys are stored upper-cased and every lookup
upper-cases its argument, which we model with `headersContains`/
`headersGet` over entries whose keys are already upper-case. -/

structure Request where
  client_address : String × Int
  method : String
  path : String
  headers : List (String × List String)
  /-- the `matches` attribute (`matches` is reserved in Lean) -/
  matchesDict : List (String × Option String)
  deriving Repr

/-- `key in headers` for the `CaseInsensitiveDict`. -/
def headersContains (hs : List (String × List String)) (k : String) : Bool :=
  hs.any (fun p => p.1 = pyUpper k)

/-- `headers[key]` for the `CaseInsensitiveDict` (`none` = `KeyError`). -/
def headersGet (hs : List (String × List String)) (k : String) :
    Option (List String) :=
  (hs.find? (fun p => p.1 = pyUpper k)).map (fun p => p.2)

/-! ## Python `int()` parsing

`int(str_value)` accepts surrounding whitespace, an optional sign and a
nonempty digit run with single underscores between digits; anything else
raises `ValueError` (modelled as `none`). -/

def pyWhitespace (c : Char) : Bool :=
  c = ' ' ∨ c = '\t' ∨ c = '\n' ∨ c = '\r' ∨ c = '\x0b' ∨ c = '\x0c'

/-- Digit run with single interior underscores.  `expectDigit` is true when
the next character must be a digit (start of input or just after `_`). -/
def pyDigits : List Char → Bool → Nat → Option Nat
  | [], expectDigit, acc => if expectDigit then none else some acc
  | c :: rest, expectDigit, acc =>
    if c.isDigit then
      pyDigits rest false (acc * 10 + (c.toNat - '0'.toNat))
    else if c = '_' ∧ ¬ expectDigit then
      pyDigits rest true acc
    else none

def pyInt (s : String) : Option Int :=
  let cs := (s.data.dropWhile pyWhitespace).reverse.dropWhile pyWhitespace
    |>.reverse
  match cs with
  | '+' :: rest => (pyDigits rest true 0).map (fun n => (n : Int))
  | '-' :: rest => (pyDigits rest true 0).map (fun n => -(n : Int))
  | rest => (pyDigits rest true 0).map (fun n => (n : Int))

/-! ## Routes and the Router (http_server.py lines 336-347, 480-531, 622-633)

A handler callback is external user code; its observable behaviours at the
dispatcher boundary are: returning a `Response` instance, returning `None`,
raising an exception (`except Exception` in `request_response`), or
returning some other object.  `Route.options` is consulted only through
`options.get('max_content_length', None)`, modelled by the
`max_content_length` field. -/

inductive HandlerOutcome where
  /-- the callback returns a `Response` instance -/
  | returns (r : Resp)
  /-- the callback returns `None` -/
  | returnsNone
  /-- the callback raises an exception -/
  | raises
  /-- the callback returns a non-`None`, non-`Response` value -/
  | returnsOther

structure Route where
  name : String
  method : String
  pattern : String
  callback : Request → HandlerOutcome
  /-- `options.get('max_content_length', None)` -/
  max_content_length : Option Int

/-- One entry of a route table: `(regex, tokens, route)` as appended by
`registerRoutes`. -/
abbrev REntry := List Chunk × List String × Route

structure Router where
  /-- `route_table["DELETE"]` -/
  delete_table : List REntry
  /-- `route_table["GET"]` -/
  get_table : List REntry
  /-- `route_table["POST"]` -/
  post_table : List REntry
  /-- `route_table["PUT"]` -/
  put_table : List REntry
  routes : List Route
  limiter : RateLimiter

/-- `Router.__init__`: empty tables and the default limiter
`RateLimiter(5, 60*1000, 1024)`. -/
def Router.init : Router :=
  { delete_table := [], get_table := [], post_table := [], put_table := []
    routes := []
    limiter := RateLimiter.init 5 (60 * 1000) 1024 }

/-- `method in self.route_table` / `self.route_table[method]`. -/
def Router.table (r : Router) : String → Option (List REntry)
  | "DELETE" => some r.delete_table
  | "GET" => some r.get_table
  | "POST" => some r.post_table
  | "PUT" => some r.put_table
  | _ => none

def Router.setTable (r : Router) (method : String) (es : List REntry) : Router :=
  match method with
  | "DELETE" => { r with delete_table := es }
  | "GET" => { r with get_table := es }
  | "POST" => { r with post_table := es }
  | "PUT" => { r with put_table := es }
  | _ => r

/-- `Router.registerRoutes` over a list of routes: compile each pattern
(`ValueError` from `patternToRegex` propagates) and append to the method's
table, rejecting unsupported methods. -/
def Router.registerRoutes (r : Router) : List Route → Except String Router
  | [] => .ok r
  | route :: rest =>
    match patternToRegex route.pattern with
    | .error e => .error e
    | .ok (regex, tokens) =>
      match r.table route.method with
      | none => .error ("Unsupported method: " ++ route.method)
      | some es =>
        let r := r.setTable route.method (es ++ [(regex, tokens, route)])
        Router.registerRoutes { r with routes := r.routes ++ [route] } rest

/-- `{k: v for k, v in zip(tokens, m.groups())}`. -/
def zipDict (tokens : List String) (gs : List (Option String)) :
    List (String × Option String) :=
  (List.zip tokens gs).foldl
    (fun d kv =>
      if d.any (fun p => p.1 = kv.1) then
        d.map (fun p => if p.1 = kv.1 then kv else p)
      else d ++ [kv])
    []

/-- The scan of one method's route list: first matching entry wins. -/
def getRouteList : List REntry → String →
    Option (Route × List (String × Option String))
  | [], _ => none
  | (regex, tokens, endpt) :: rest, path =>
    match reMatch regex path with
    | some gs => some (endpt, zipDict tokens gs)
    | none => getRouteList rest path

/-- `Router.getRoute`: `None` for an unsupported method, else the first
matching route of that method's table with its token→capture dict. -/
def Router.getRoute (r : Router) (method path : String) :
    Option (Route × List (String × Option String)) :=
  match r.table method with
  | none => none
  | some es => getRouteList es path

/-! ## request_response (http_server.py lines 430-478) -/

/-- The content-length validation block: `None` means the checks passed and
the user callback will run.  `request_content_length` starts at `0`; a
missing header sets a 411 response (but the `> max_content_length`
comparison still runs afterwards); a present header is parsed with `int`,
`ValueError` and any other exception (e.g. `IndexError` on an empty value
list) give `0`, and a negative value is clamped to `0`. -/
def validateContentLength (max_content_length : Option Int)
    (headers : List (String × List String)) : Option Resp :=
  match max_content_length with
  | none => none
  | some mcl =>
    if ¬ headersContains headers "Content-Length" then
      let resp := JsonResponse.init (errObj "Content-Length not specified") 411
      if (0 : Int) > mcl then
        some (JsonResponse.init (errObj "Payload too large") 413)
      else some resp
    else
      let rcl : Int :=
        match headersGet headers "Content-Length" with
        | none => 0
        | some vals =>
          match vals.head? with
          | none => 0
          | some v =>
            match pyInt v with
            | none => 0
            | some n => if n < 0 then 0 else n
      if rcl > mcl then some (JsonResponse.init (errObj "Payload too large") 413)
      else none

/-- The handler-invocation phase: call the callback inside
`try/except Exception`; a `None` response becomes the 500 error; a
non-`Response` value raises `TypeError`. -/
def runHandler (endpt : Route) (req : Request) : Except PyErr Resp :=
  match endpt.callback req with
  | HandlerOutcome.returns r => Except.ok r
  | HandlerOutcome.returnsNone =>
    Except.ok (JsonResponse.init (errObj "route failed to return a response") 500)
  | HandlerOutcome.raises =>
    Except.ok (JsonResponse.init (errObj "route failed to return a response") 500)
  | HandlerOutcome.returnsOther => Except.error PyErr.typeError

/-- `request_response(router, request)`. -/
def request_response (router : Router) (req : Request) : Except PyErr Resp :=
  match router.getRoute req.method req.path with
  | none => Except.ok (JsonResponse.init (errObj "path not found") 404)
  | some (endpt, ms) =>
    let req := { req with matchesDict := ms }
    match validateContentLength endpt.max_content_length req.headers with
    | some resp => Except.ok resp
    | none => runHandler endpt req

/-! ## Router.dispatch (http_server.py lines 622-633) -/

/-- `Router.dispatch(request)` at wall-clock time `ms`: rate-check by
client IP (a block short-circuits to the 429 response), otherwise run
`request_response`; finally render the chosen response
(`response._get_payload(request)`, which may mutate its headers). -/
def Router.dispatch (r : Router) (req : Request) (ms : Nat) :
    Except PyErr (Router × Resp × PyObj) :=
  match r.limiter.insert req.client_address.1 ms with
  | none => Except.error PyErr.runtimeError
  | some (lim, blocked) =>
    let r := { r with limiter := lim }
    let response :=
      if blocked then Except.ok (JsonResponse.init (errObj "Too Many Requests") 429)
      else request_response r req
    match response with
    | Except.error e => Except.error e
    | Except.ok resp =>
      match Response.getPayload resp with
      | Except.error e => Except.error e
      | Except.ok (resp, payload) => Except.ok (r, resp, payload)

/-! ## path_join_safe (http_server.py lines 28-52)

`path_join_safe` uses `os.path.join` and `os.path.abspath`; we embed their
POSIX (`posixpath`) semantics, passing the process working directory `cwd`
explicitly (`abspath` consults it for relative inputs). -/

/-- `posixpath.join(a, b)` for two components: an absolute `b` discards
`a`. -/
def os_path_join (a b : String) : String :=
  if pyStartsWith b "/" then b
  else if a = "" ∨ pyEndsWith a "/" then a ++ b
  else a ++ "/" ++ b

/-- `posixpath.normpath`: collapse `//` and `.` components, resolve `..`
lexically (keeping leading `..` on relative paths), preserve an exactly
double leading slash. -/
def os_path_normpath (p : String) : String :=
  if p = "" then "."
  else
    let initialSlashes : Nat :=
      if pyStartsWith p "/" then
        if pyStartsWith p "//" ∧ ¬ pyStartsWith p "///" then 2 else 1
      else 0
    let comps := pySplitChar '/' p
    let newComps := comps.foldl
      (fun acc comp =>
        if comp = "" ∨ comp = "." then acc
        else if comp ≠ ".." ∨ (initialSlashes = 0 ∧ acc = []) ∨
            acc.getLast? = some ".." then
          acc ++ [comp]
        else if acc ≠ [] then acc.dropLast
        else acc)
      []
    let joined := joinSep "" (List.replicate initialSlashes "/") ++
      joinSep "/" newComps
    if joined = "" then "." else joined

/-- `posixpath.abspath(p)` with working directory `cwd`. -/
def os_path_abspath (cwd p : String) : String :=
  os_path_normpath (if pyStartsWith p "/" then p else os_path_join cwd p)

/-- `path_join_safe(root_directory, filename)`: reject a filename any of
whose `/`-separated components is exactly `.` or `..` (after replacing
backslashes by slashes), otherwise return
`os.path.abspath(os.path.join(root_directory, filename))`.
`.error` models the `ValueError("invalid path")`. -/
def path_join_safe (cwd root_directory filename : String) :
    Except String String :=
  let root := pyReplaceChar '\\' '/' root_directory
  let fn := pyReplaceChar '\\' '/' filename
  let parts := pySplitChar '/' fn
  if parts.contains ".." ∨ parts.contains "." then .error "invalid path"
  else .ok (os_path_abspath cwd (os_path_join root fn))

/-! # Claims -/

/-! ## C1 — rate limiter five-then-block behaviour

The claim: for a limiter with limit=5, interval=60000 ms and a key with no
prior history, five inserts within one window return "not blocked" and the
sixth returns "blocked".  In the source, the history-reset branch of
`RollingCounter.increment` (taken whenever `index - self._current_index >
self._bins`) never updates `self._current_index`, which stays `0` from the
constructor; since the real clock gives `ms // 15000` values vastly larger
than `bins = 4`, *every* increment takes the reset branch, the bin list is
`[1]` after each call, and `insert` never reports a block. -/

/-- Successive distinct-key inserts at one time, discarding the decisions
(used to fill the key cache). -/
def RateLimiter.insertKeys (rl : RateLimiter) : List String → Nat → Option RateLimiter
  | [], _ => some rl
  | k :: ks, ms =>
    match rl.insert k ms with
    | none => none
    | some (rl', _) => rl'.insertKeys ks ms

/-- C1: at the realistic wall-clock time 1760000000000 ms (all six calls in
the same window), six successive inserts of the fresh key "A" into the
router's default limiter (limit=5, interval=60000 ms) ALL return "not
blocked" — the sixth call is not blocked, contradicting the claim.  The
stored bin index is never updated by the reset branch, so every call
resets the history to a single bin holding 1. -/
theorem c1_rate_limiter_never_blocks :
    ((RateLimiter.init 5 (60 * 1000) 1024).insertSeq "A"
      (List.replicate 6 1760000000000)).map (fun p => p.2) =
    some [false, false, false, false, false, false] := by
  decide

/-! ## C3 — path_join_safe traversal protection

The claim: `path_join_safe` rejects `.`/`..` components and otherwise
returns a path under the root.  But `os.path.join` discards the root when
the untrusted filename is absolute, so `path_join_safe("/var/www",
"/etc/passwd")` returns `/etc/passwd` — no component is `.` or `..`, no
error is raised, and the result does not lie under `/var/www`,
contradicting both the claim and the function's own docstring. -/

/-- C3: with any working directory (here `/srv`), root `/var/www` and the
absolute untrusted filename `/etc/passwd`, `path_join_safe` returns
`/etc/passwd` without error, and that result does not have the root as a
prefix. -/
theorem c3_path_join_safe_escapes_root :
    path_join_safe "/srv" "/var/www" "/etc/passwd" = .ok "/etc/passwd" ∧
    pyStartsWith "/etc/passwd" "/var/www" = false := by
  constructor
  · rfl
  · rfl

/-! ## C4 — router's key-cache capacity

The claim: the default limiter's key cache holds up to 1024 distinct keys,
evicting the least-recently-used only when a 1025th key is inserted.  In
the source, `RateLimiter.__init__` calls `CacheDict(capacity=capacity)`,
but `CacheDict.__init__` has no `capacity` parameter — the keyword falls
through `**kwargs` into `OrderedDict.__init__` as an initial item
`("capacity", 1024)`, and `cache_len` keeps its default 128.  The cache
therefore never holds more than 128 entries. -/

set_option maxRecDepth 100000 in
/-- C4: the router's default limiter has `cache_len = 128` (not 1024) and
starts with the spurious entry `("capacity", 1024)`; inserting 129 distinct
keys at one time evicts the first key ("k0") while the 129th ("k128") and
the second ("k1") are present, and the cache length is pinned at 128 —
eviction begins far before any 1025th key. -/
theorem c4_key_cache_capacity_is_128 :
    Router.init.limiter.counter.cache_len = 128 ∧
    Router.init.limiter.counter.entries = [("capacity", CVal.int 1024)] ∧
    ((Router.init.limiter.insertKeys
        ((List.range 129).map (fun n => "k" ++ toString n)) 1760000000000).map
      (fun rl => (rl.counter.contains "k0", rl.counter.contains "k1",
        rl.counter.contains "k128", rl.counter.entries.length))) =
    some (false, true, true, 128) := by
  refine ⟨rfl, rfl, ?_⟩
  decide

/-! ## C2 — pattern-compilation error condition

The claim: compiling a pattern whose optional/greedy token is not the last
segment fails, and every pattern whose single such token is final
compiles.  In the source the `final` flag only guards against a *second*
optional/greedy token: a single `?`/`*`/`+` token followed by literal or
plain-token segments compiles without error. -/

/-- A pattern segment carrying an optional/greedy marker: starts with `:`
and ends with `?`, `*` or `+`. -/
def isSpecialPart (p : String) : Bool :=
  pyStartsWith p ":" &&
    (pyLastChar p == '?' || pyLastChar p == '*' || pyLastChar p == '+')

def exceptOk {ε α : Type} : Except ε α → Bool
  | .ok _ => true
  | .error _ => false

/-- C2 counterexample: in `/:a?/b` the optional token `:a?` is not the last
segment, yet `patternToRegex` compiles it without error (the claim says
this must raise an invalid-pattern error). -/
theorem c2_counterexample_nonfinal_optional_compiles :
    patternToRegex "/:a?/b" =
      .ok ([Chunk.opt, Chunk.lit "b", Chunk.slashOpt], ["a"]) := by
  rfl

theorem exceptOk_compileParts_cons_special (pattern part : String)
    (rest : List String) (final : Bool) (h : isSpecialPart part = true) :
    exceptOk (compileParts pattern (part :: rest) final) =
      (!final && exceptOk (compileParts pattern rest true)) := by
  have hs : pyStartsWith part ":" = true := by
    by_contra hs
    simp [isSpecialPart, hs] at h
  have hc : pyLastChar part = '?' ∨ pyLastChar part = '*' ∨ pyLastChar part = '+' := by
    by_contra hc
    push_neg at hc
    simp [isSpecialPart, hs, hc.1, hc.2.1, hc.2.2] at h
  rcases hc with hc | hc | hc <;> cases final <;>
    simp only [compileParts, hs, hc, if_true, Bool.not_true, Bool.not_false,
      Bool.false_and, Bool.true_and, reduceIte, exceptOk] <;>
    rcases compileParts pattern rest true with e | ⟨cs, ts⟩ <;>
    simp [exceptOk]

theorem exceptOk_compileParts_cons_nonspecial (pattern part : String)
    (rest : List String) (final : Bool) (h : isSpecialPart part = false) :
    exceptOk (compileParts pattern (part :: rest) final) =
      exceptOk (compileParts pattern rest final) := by
  by_cases hs : pyStartsWith part ":"
  · have hc : ¬ pyLastChar part = '?' ∧ ¬ pyLastChar part = '*' ∧
        ¬ pyLastChar part = '+' := by
      constructor
      · intro hq; simp [isSpecialPart, hs, hq] at h
      constructor
      · intro hq; simp [isSpecialPart, hs, hq] at h
      · intro hq; simp [isSpecialPart, hs, hq] at h
    simp only [compileParts, hs, if_true, hc.1, hc.2.1, hc.2.2, reduceIte]
    rcases compileParts pattern rest final with e | ⟨cs, ts⟩ <;>
      simp [exceptOk]
  · simp only [compileParts, hs, Bool.false_eq_true, reduceIte]
    rcases compileParts pattern rest final with e | ⟨cs, ts⟩ <;>
    simp [exceptOk]

theorem compileParts_ok_iff (pattern : String) (parts : List String) :
    ∀ final : Bool,
    (exceptOk (compileParts pattern parts final) = true ↔
      parts.countP isSpecialPart + (if final then 1 else 0) ≤ 1) := by
  induction parts with
  | nil =>
    intro final
    cases final <;> simp [compileParts, exceptOk]
  | cons part rest ih =>
    intro final
    by_cases h : isSpecialPart part
    · rw [exceptOk_compileParts_cons_special pattern part rest final h]
      rw [List.countP_cons_of_pos _ _ h]
      cases final with
      | false =>
        simp only [Bool.not_false, Bool.true_and]
        rw [ih true]
        simp only [Bool.false_eq_true, if_false, if_true]
      | true =>
        simp only [Bool.not_true, Bool.false_and, reduceIte]
        constructor
        · intro hf; exact absurd hf (by simp)
        · intro hle; omega
    · rw [exceptOk_compileParts_cons_nonspecial pattern part rest final
        (by simpa using h)]
      rw [List.countP_cons_of_neg _ _ (by simpa using h)]
      exact ih final

/-- C2 (amended): `patternToRegex` raises the invalid-pattern `ValueError`
exactly when the pattern contains MORE THAN ONE optional/greedy
(`?`/`*`/`+`) token segment; the position of a single such token is not
checked, so any pattern with at most one compiles without error no matter
where the token sits. -/
theorem c2_error_iff_two_special_tokens (pattern : String) :
    exceptOk (patternToRegex pattern) = true ↔
      (splitPatternParts pattern).countP isSpecialPart ≤ 1 := by
  have h := compileParts_ok_iff pattern (splitPatternParts pattern) false
  simp only [Bool.false_eq_true, if_false, Nat.add_zero] at h
  rw [← h]
  unfold patternToRegex
  rcases compileParts pattern (splitPatternParts pattern) false with e | ⟨cs, ts⟩ <;>
  simp [exceptOk]

/-! ## C7 — first-match route lookup

Concrete routes for the precedence example: `/user/:id` registered before
`/user/admin`, both GET. -/

def uidRoute : Route :=
  { name := "user.get_id", method := "GET", pattern := "/user/:id"
    callback := fun _ => HandlerOutcome.returnsNone
    max_content_length := none }

def uadminRoute : Route :=
  { name := "user.get_admin", method := "GET", pattern := "/user/admin"
    callback := fun _ => HandlerOutcome.returnsNone
    max_content_length := none }

/-- C7: (1) a successful lookup returns the FIRST entry of the method's
route list (registration order) whose matcher accepts the path — all
earlier entries fail to match — together with the token→capture dict built
from its groups; (2) a method other than DELETE/GET/POST/PUT always yields
no match; (3) concretely, with `/user/:id` registered before `/user/admin`,
path `/user/admin` resolves to the first route, capturing id="admin". -/
theorem c7_route_lookup_first_match :
    (∀ (es : List REntry) (path : String) (route : Route)
        (m : List (String × Option String)),
      getRouteList es path = some (route, m) →
      ∃ pre entry post, es = pre ++ entry :: post ∧
        (∀ e ∈ pre, reMatch e.1 path = none) ∧
        ∃ gs, reMatch entry.1 path = some gs ∧
          route = entry.2.2 ∧ m = zipDict entry.2.1 gs) ∧
    (∀ (r : Router) (method path : String),
      method ∉ (["DELETE", "GET", "POST", "PUT"] : List String) →
      r.getRoute method path = none) ∧
    ((Router.init.registerRoutes [uidRoute, uadminRoute]).toOption.map
        (fun R => (R.getRoute "GET" "/user/admin").map
          (fun p => (p.1.name, p.2))) =
      some (some ("user.get_id", [("id", some "admin")]))) := by
  refine ⟨?_, ?_, by rfl⟩
  · intro es path route m h
    induction es with
    | nil => simp [getRouteList] at h
    | cons e rest ih =>
      rcases e with ⟨regex, tokens, endpt⟩
      rcases hr : reMatch regex path with _ | gs
      · rw [getRouteList, hr] at h
        obtain ⟨pre, entry, post, hes, hpre, gs, hgs, hroute, hm⟩ := ih h
        refine ⟨(regex, tokens, endpt) :: pre, entry, post,
          by rw [hes, List.cons_append], ?_, gs, hgs, hroute, hm⟩
        intro e' he'
        rcases List.mem_cons.mp he' with he' | he'
        · rw [he']; exact hr
        · exact hpre e' he'
      · rw [getRouteList, hr] at h
        injection h with h2
        refine ⟨[], (regex, tokens, endpt), rest, rfl, by simp, gs, hr, ?_, ?_⟩
        · exact (congrArg Prod.fst h2.symm)
        · exact (congrArg Prod.snd h2.symm)
  · intro r method path hmem
    have ht : r.table method = none := by
      rw [Router.table.eq_def]
      split <;> simp_all
    rw [Router.getRoute, ht]

/-- The compiled route table entries of [uidRoute, uadminRoute]. -/
def c7Entries : List REntry :=
  [([Chunk.lit "user", Chunk.plain, Chunk.slashOpt], ["id"], uidRoute),
   ([Chunk.lit "user", Chunk.lit "admin", Chunk.slashOpt], [], uadminRoute)]

/-- Witness for C7 at a concrete input: the lookup of `/user/admin` in the
two-route table decomposes as first-match (no earlier entry matches), and
the unsupported method "PATCH" yields no match on the default router. -/
theorem c7_route_lookup_first_match_witness :
    (∃ pre entry post, c7Entries = pre ++ entry :: post ∧
      (∀ e ∈ pre, reMatch e.1 "/user/admin" = none) ∧
      ∃ gs, reMatch entry.1 "/user/admin" = some gs ∧
        uidRoute = entry.2.2 ∧
        [("id", some "admin")] = zipDict entry.2.1 gs) ∧
    Router.init.getRoute "PATCH" "/user/admin" = none :=
  ⟨c7_route_lookup_first_match.1 c7Entries "/user/admin" uidRoute
      [("id", some "admin")] (by rfl),
    c7_route_lookup_first_match.2.1 Router.init "PATCH" "/user/admin"
      (by decide)⟩

/-! ## C5 — content-length validation -/

/-- A successful `headers[k]` lookup implies `k in headers`. -/
theorem headersContains_of_get {hs : List (String × List String)} {k : String}
    {vs : List String} (h : headersGet hs k = some vs) :
    headersContains hs k = true := by
  unfold headersGet at h
  unfold headersContains
  rcases hfind : hs.find? (fun p => p.1 = pyUpper k) with _ | x
  · rw [hfind] at h; simp at h
  · exact List.any_eq_true.mpr
      ⟨x, List.mem_of_find?_eq_some hfind,
        List.find?_some (p := fun q : String × List String => decide (q.1 = pyUpper k)) hfind⟩

/-- C5 (amended): for a matched route declaring a NON-NEGATIVE maximum
body size: a request with no Content-Length header gets 411; a declared
length parsing to a value strictly above the maximum gets 413; a malformed
or negative value is treated as zero and the request proceeds to the
handler phase.  (For a negative declared maximum — not a meaningful size —
the source's final `request_content_length > max_content_length` check
overrides the 411 with 413, which is what forces the non-negativity
hypothesis.) -/
theorem c5_content_length_validation
    (router : Router) (req : Request) (endpt : Route)
    (m : List (String × Option String)) (mcl : Int)
    (hroute : router.getRoute req.method req.path = some (endpt, m))
    (hmcl : endpt.max_content_length = some mcl) (hpos : 0 ≤ mcl) :
    (headersContains req.headers "Content-Length" = false →
      request_response router req =
        .ok (JsonResponse.init (errObj "Content-Length not specified") 411)) ∧
    (∀ v vs n, headersGet req.headers "Content-Length" = some (v :: vs) →
      pyInt v = some n → n > mcl →
      request_response router req =
        .ok (JsonResponse.init (errObj "Payload too large") 413)) ∧
    (∀ v vs, headersGet req.headers "Content-Length" = some (v :: vs) →
      (pyInt v = none ∨ ∃ n, pyInt v = some n ∧ n < 0) →
      request_response router req =
        runHandler endpt { req with matchesDict := m }) := by
  refine ⟨?_, ?_, ?_⟩
  · intro hnc
    simp only [request_response, hroute, validateContentLength, hmcl, hnc,
      Bool.false_eq_true, not_false_iff, if_true,
      if_neg (by omega : ¬ (0 : Int) > mcl)]
  · intro v vs n hget hn hgt
    have hc := headersContains_of_get hget
    simp only [request_response, hroute, validateContentLength, hmcl, hc,
      not_true, if_false, hget, List.head?, hn,
      if_neg (by omega : ¬ n < 0), if_pos hgt]
  · intro v vs hget hbad
    have hc := headersContains_of_get hget
    rcases hbad with hbad | ⟨n, hn, hneg⟩
    · simp only [request_response, hroute, validateContentLength, hmcl, hc,
        not_true, if_false, hget, List.head?, hbad,
        if_neg (by omega : ¬ (0 : Int) > mcl)]
    · simp only [request_response, hroute, validateContentLength, hmcl, hc,
        not_true, if_false, hget, List.head?, hn, if_pos hneg,
        if_neg (by omega : ¬ (0 : Int) > mcl)]

/-- A PUT route `/x` declaring a 10-byte maximum body size. -/
def c5Route : Route :=
  { name := "t.put", method := "PUT", pattern := "/x"
    callback := fun _ => HandlerOutcome.returnsNone
    max_content_length := some 10 }

/-- A router holding `c5Route` (the compiled table `registerRoutes`
produces for it). -/
def c5Router : Router :=
  { Router.init with
    put_table := [([Chunk.lit "x", Chunk.slashOpt], [], c5Route)]
    routes := [c5Route] }

def c5Req (hs : List (String × List String)) : Request :=
  { client_address := ("1.2.3.4", 50000), method := "PUT", path := "/x"
    headers := hs, matchesDict := [] }

/-- Witness for C5 at concrete inputs: on the 10-byte-limit route, a
request with no Content-Length gets 411, Content-Length 20 gets 413, and a
malformed Content-Length proceeds to the handler phase. -/
theorem c5_content_length_validation_witness :
    request_response c5Router (c5Req []) =
      .ok (JsonResponse.init (errObj "Content-Length not specified") 411) ∧
    request_response c5Router (c5Req [("CONTENT-LENGTH", ["20"])]) =
      .ok (JsonResponse.init (errObj "Payload too large") 413) ∧
    request_response c5Router (c5Req [("CONTENT-LENGTH", ["bogus"])]) =
      runHandler c5Route { c5Req [("CONTENT-LENGTH", ["bogus"])] with
        matchesDict := [] } :=
  ⟨(c5_content_length_validation c5Router (c5Req []) c5Route [] 10
      rfl rfl (by norm_num)).1 rfl,
   (c5_content_length_validation c5Router (c5Req [("CONTENT-LENGTH", ["20"])])
      c5Route [] 10 rfl rfl (by norm_num)).2.1 "20" [] 20 rfl rfl (by norm_num),
   (c5_content_length_validation c5Router (c5Req [("CONTENT-LENGTH", ["bogus"])])
      c5Route [] 10 rfl rfl (by norm_num)).2.2 "bogus" [] rfl (Or.inl rfl)⟩

/-- The same route declaring a NEGATIVE maximum body size (-1). -/
def c5NegRoute : Route :=
  { name := "t.put", method := "PUT", pattern := "/x"
    callback := fun _ => HandlerOutcome.returnsNone
    max_content_length := some (-1) }

def c5NegRouter : Router :=
  { Router.init with
    put_table := [([Chunk.lit "x", Chunk.slashOpt], [], c5NegRoute)]
    routes := [c5NegRoute] }

/-- C5 counterexample: on a matched route declaring maximum body size -1,
a request with NO Content-Length header is answered 413 (Payload too
large), not 411 as the claim states: the 411 response assigned for the
missing header is overwritten because `request_content_length` stays 0 and
`0 > -1`. -/
theorem c5_counterexample_negative_max_gives_413 :
    request_response c5NegRouter (c5Req []) =
      .ok (JsonResponse.init (errObj "Payload too large") 413) := by
  rfl

/-! ## C6 — handler error containment -/

/-- C6: once a request reaches the handler phase (route matched, size
validation passed): a callback that raises is caught and converted to the
500 JSON error (request_response returns `.ok`, never propagating the
exception); a callback returning `None` gets the same 500 error; a
callback returning a non-Response value makes request_response itself
raise `TypeError` (fail loudly). -/
theorem c6_handler_error_containment
    (router : Router) (req : Request) (endpt : Route)
    (m : List (String × Option String))
    (hroute : router.getRoute req.method req.path = some (endpt, m))
    (hval : validateContentLength endpt.max_content_length req.headers = none) :
    (endpt.callback { req with matchesDict := m } = HandlerOutcome.raises →
      request_response router req =
        .ok (JsonResponse.init (errObj "route failed to return a response") 500)) ∧
    (endpt.callback { req with matchesDict := m } = HandlerOutcome.returnsNone →
      request_response router req =
        .ok (JsonResponse.init (errObj "route failed to return a response") 500)) ∧
    (endpt.callback { req with matchesDict := m } = HandlerOutcome.returnsOther →
      request_response router req = .error PyErr.typeError) := by
  refine ⟨?_, ?_, ?_⟩ <;> intro hcb <;>
    simp only [request_response, hroute, hval, runHandler, hcb]

/-- A GET route `/x` with no size limit whose callback raises. -/
def c6RaisesRoute : Route :=
  { name := "t.get", method := "GET", pattern := "/x"
    callback := fun _ => HandlerOutcome.raises
    max_content_length := none }

/-- The same route with a callback returning `None`. -/
def c6NoneRoute : Route :=
  { c6RaisesRoute with callback := fun _ => HandlerOutcome.returnsNone }

/-- The same route with a callback returning a non-Response value. -/
def c6OtherRoute : Route :=
  { c6RaisesRoute with callback := fun _ => HandlerOutcome.returnsOther }

def c6Router (route : Route) : Router :=
  { Router.init with
    get_table := [([Chunk.lit "x", Chunk.slashOpt], [], route)]
    routes := [route] }

def c6Req : Request :=
  { client_address := ("1.2.3.4", 50000), method := "GET", path := "/x"
    headers := [], matchesDict := [] }

/-- Witness for C6 at concrete inputs: a raising callback and a
None-returning callback both produce the 500 JSON error; a non-Response
value makes request_response raise `TypeError`. -/
theorem c6_handler_error_containment_witness :
    request_response (c6Router c6RaisesRoute) c6Req =
      .ok (JsonResponse.init (errObj "route failed to return a response") 500) ∧
    request_response (c6Router c6NoneRoute) c6Req =
      .ok (JsonResponse.init (errObj "route failed to return a response") 500) ∧
    request_response (c6Router c6OtherRoute) c6Req = .error PyErr.typeError :=
  ⟨(c6_handler_error_containment (c6Router c6RaisesRoute) c6Req
      c6RaisesRoute [] rfl rfl).1 rfl,
   (c6_handler_error_containment (c6Router c6NoneRoute) c6Req
      c6NoneRoute [] rfl rfl).2.1 rfl,
   (c6_handler_error_containment (c6Router c6OtherRoute) c6Req
      c6OtherRoute [] rfl rfl).2.2 rfl⟩

/-! ## C8 — rate-limit short-circuit in dispatch -/

/-- C8: whenever the limiter reports a block for the request's client key,
`dispatch` returns the rendered 429 JSON error.  The router `r` — and with
it the entire route table — is universally quantified and untouched in the
conclusion (only the limiter field advances), so the result is the same
whatever routes are registered: no route lookup is involved. -/
theorem c8_blocked_request_dispatches_429 (r : Router) (req : Request)
    (ms : Nat) (lim : RateLimiter)
    (h : r.limiter.insert req.client_address.1 ms = some (lim, true)) :
    r.dispatch req ms = .ok ({ r with limiter := lim },
      { kind := RespKind.json, status_code := 429
        headers := [("Content-Type", "application/json"),
                    ("Content-Length", "31")]
        payload := PyObj.pydict [("error", "Too Many Requests")]
        compress := false },
      PyObj.pybytes (PyByteSeq.raw
        "\x7b\"error\": \"Too Many Requests\"\x7d\n")) := by
  simp only [Router.dispatch, h]
  rfl

/-- A counter one increment away from exceeding the limit at bin index 1
(wall-clock 20000 ms, bin width 15000 ms). -/
def c8Counter : RollingCounter :=
  { interval_ms := 15000, current_index := 1, bins := 4
    counts := [5], count := 5 }

def c8Limiter : RateLimiter :=
  { counter := { cache_len := 128
                 entries := [("1.2.3.4", CVal.rc c8Counter)] }
    blocked := CacheDict.initCapacityKw 1024
    limit := 5, interval_ms := 60 * 1000 }

/-- `c8Limiter` after the blocking insert of "1.2.3.4" at 20000 ms. -/
def c8LimiterAfter : RateLimiter :=
  { c8Limiter with
    counter := { cache_len := 128
                 entries := [("1.2.3.4", CVal.rc { c8Counter with
                   counts := [6], count := 6 })] } }

def c8Router : Router := { Router.init with limiter := c8Limiter }

def c8Req : Request :=
  { client_address := ("1.2.3.4", 50000), method := "GET", path := "/x"
    headers := [], matchesDict := [] }

/-- Witness for C8 at a concrete input: a client at its limit dispatches
to the rendered 429 response. -/
theorem c8_blocked_request_dispatches_429_witness :
    c8Router.dispatch c8Req 20000 = .ok ({ c8Router with limiter := c8LimiterAfter },
      { kind := RespKind.json, status_code := 429
        headers := [("Content-Type", "application/json"),
                    ("Content-Length", "31")]
        payload := PyObj.pydict [("error", "Too Many Requests")]
        compress := false },
      PyObj.pybytes (PyByteSeq.raw
        "\x7b\"error\": \"Too Many Requests\"\x7d\n")) :=
  c8_blocked_request_dispatches_429 c8Router c8Req 20000 c8LimiterAfter rfl

/-! ## C9 — `*`-suffixed token matching -/

theorem String_mk_data (s : String) : String.mk s.data = s := rfl

theorem isPrefixOf_append_self (l r : List Char) :
    l.isPrefixOf (l ++ r) = true := by
  induction l with
  | nil => simp [List.isPrefixOf]
  | cons c cs ih => simp [List.isPrefixOf, ih]

/-- A list all of whose elements satisfy `p` is one maximal run for `p`. -/
theorem runLen_eq_length {p : Char → Bool} :
    ∀ l : List Char, (∀ c ∈ l, p c = true) → runLen p l = l.length := by
  intro l h
  induction l with
  | nil => rfl
  | cons c cs ih =>
    have hc := h c (List.mem_cons_self c cs)
    simp [runLen, hc, ih (fun x hx => h x (List.mem_cons_of_mem c hx))]

theorem downFrom_head (n : Nat) : ∃ t, downFrom n = n :: t := by
  cases n with
  | zero => exact ⟨[], rfl⟩
  | succ k => exact ⟨downFrom k, rfl⟩

/-- The chunks `patternToRegex` produces for `/files/:rest*`. -/
def c9Chunks : List Chunk := [Chunk.lit "files", Chunk.star, Chunk.slashOpt]

/-- C9 (amended): `/files/:rest*` compiles to the star matcher; the path
`/files` (no trailing segments) matches with NO captured value for `rest`
(the group does not participate, Python returns `None` — not the empty
string); and for every newline-free tail `s`, the path `"/files/" ++ s`
matches with `rest` captured as exactly `s` (one string, embedded slashes
included; `s` may be empty, in which case the capture is the empty
string). -/
theorem c9_star_token_matching :
    patternToRegex "/files/:rest*" = .ok (c9Chunks, ["rest"]) ∧
    reMatch c9Chunks "/files" = some [none] ∧
    ∀ s : String, (∀ c ∈ s.data, c ≠ '\n') →
      reMatch c9Chunks ("/files/" ++ s) = some [some s] := by
  refine ⟨by rfl, by rfl, ?_⟩
  intro s hs
  have hdata : ("/files/" ++ s).data =
      ('/' :: "files".data) ++ ('/' :: s.data) := by
    rw [String.data_append]
    rfl
  have hdot : ∀ c ∈ s.data, dotChar c = true := by
    intro c hc
    simp [dotChar, hs c hc]
  have hrun : runLen dotChar s.data = s.data.length := runLen_eq_length _ hdot
  obtain ⟨t, ht⟩ := downFrom_head s.data.length
  unfold reMatch
  rw [hdata]
  show (matchChunks c9Chunks (('/' :: "files".data) ++ ('/' :: s.data))).map _ = _
  unfold c9Chunks
  rw [matchChunks, if_pos (isPrefixOf_append_self _ _), List.drop_left]
  rw [matchChunks]
  simp only [hrun, ht]
  rw [firstSome]
  simp only [List.drop_length, List.take_length]
  have hend : matchChunks [Chunk.slashOpt] ([] : List Char) = some [] := by rfl
  rw [hend]
  simp [orElse3, orElse2, String_mk_data]

def c9Route : Route :=
  { name := "files.get", method := "GET", pattern := "/files/:rest*"
    callback := fun _ => HandlerOutcome.returnsNone
    max_content_length := none }

def c9Router : Router :=
  { Router.init with
    get_table := [(c9Chunks, ["rest"], c9Route)]
    routes := [c9Route] }

/-- C9 counterexample: routing `/files` through `/files/:rest*` yields the
capture dict mapping "rest" to `None` — the group did not participate in
the match — NOT to the empty string as the claim states ("captures
everything after its slash as one string ... an empty capture"). -/
theorem c9_counterexample_rest_capture_is_none :
    (c9Router.getRoute "GET" "/files").map (fun p => p.2) =
      some [("rest", (none : Option String))] ∧
    (none : Option String) ≠ some "" := by
  exact ⟨rfl, by simp⟩

/-- Witness for C9 at concrete inputs: `/files/a/b` captures rest="a/b". -/
theorem c9_star_token_matching_witness :
    reMatch c9Chunks ("/files/" ++ "a/b") = some [some "a/b"] :=
  c9_star_token_matching.2.2 "a/b" (by decide)

/-! ## C10 — trailing-slash tolerance

To reason about all paths a compiled matcher accepts we give the chunk
lists a relational (nondeterministic) semantics — `Seg c u` says the regex
fragment of chunk `c` can consume exactly `u`, `Consumes cs u` chains the
fragments, `AcceptsProp cs s` adds the terminal `$` (end of string or just
before a terminal newline) — and prove the backtracking matcher
`matchChunks` succeeds exactly on the accepted strings. -/

theorem mem_downFrom {k n : Nat} : k ∈ downFrom n ↔ k ≤ n := by
  induction n with
  | zero => simp [downFrom, Nat.le_zero]
  | succ m ih =>
    rw [downFrom]
    simp only [List.mem_cons, ih]
    omega

theorem firstSome_isSome_iff {α β : Type} (f : α → Option β) (l : List α) :
    (firstSome f l).isSome ↔ ∃ a ∈ l, (f a).isSome := by
  induction l with
  | nil => simp [firstSome]
  | cons a as ih =>
    rw [firstSome]
    rcases hf : f a with _ | b
    · simp only [List.mem_cons, ih]
      constructor
      · rintro ⟨x, hx, hfx⟩; exact ⟨x, Or.inr hx, hfx⟩
      · rintro ⟨x, hx | hx, hfx⟩
        · rw [hx, hf] at hfx; simp at hfx
        · exact ⟨x, hx, hfx⟩
    · simp only [Option.isSome_some, true_iff]
      exact ⟨a, List.mem_cons_self a as, by rw [hf]; rfl⟩

theorem runLen_le_length (p : Char → Bool) (l : List Char) :
    runLen p l ≤ l.length := by
  induction l with
  | nil => simp [runLen]
  | cons c cs ih =>
    rw [runLen]
    split
    · simpa using ih
    · simp

theorem take_sat_of_le_runLen {p : Char → Bool} :
    ∀ {l : List Char} {k : Nat}, k ≤ runLen p l →
      ∀ c ∈ l.take k, p c = true := by
  intro l
  induction l with
  | nil => intro k _ c hc; simp at hc
  | cons a as ih =>
    intro k hk c hc
    rw [runLen] at hk
    by_cases hp : p a
    · rw [if_pos hp] at hk
      cases k with
      | zero => simp at hc
      | succ m =>
        rw [List.take_succ_cons] at hc
        rcases List.mem_cons.mp hc with hc | hc
        · rw [hc]; exact hp
        · exact ih (Nat.le_of_succ_le_succ hk) c hc
    · rw [if_neg hp] at hk
      interval_cases k
      simp at hc

theorem le_runLen_append {p : Char → Bool} :
    ∀ {t : List Char} (r : List Char), (∀ c ∈ t, p c = true) →
      t.length ≤ runLen p (t ++ r) := by
  intro t
  induction t with
  | nil => intro r _; simp
  | cons a as ih =>
    intro r h
    have ha := h a (List.mem_cons_self a as)
    rw [List.cons_append, runLen, if_pos ha]
    have := ih r (fun c hc => h c (List.mem_cons_of_mem a hc))
    simpa using Nat.succ_le_succ this

/-- Greedy backtracking over the candidate lengths of a character class
succeeds for some candidate iff the input splits as a satisfying prefix
(nonempty when `pos` requires it) followed by a successful remainder. -/
theorem exists_take_drop_iff (p : Char → Bool) (s' : List Char) (pos : Bool)
    (Q : List Char → Prop) :
    (∃ k, k ≤ runLen p s' ∧ (pos = true → k ≠ 0) ∧ Q (s'.drop k)) ↔
      ∃ t r, s' = t ++ r ∧ (∀ c ∈ t, p c = true) ∧
        (pos = true → t ≠ []) ∧ Q r := by
  constructor
  · rintro ⟨k, hk, hpos, hQ⟩
    refine ⟨s'.take k, s'.drop k, (List.take_append_drop k s').symm,
      take_sat_of_le_runLen hk, ?_, hQ⟩
    intro hp
    have hk0 := hpos hp
    have hkl : k ≤ s'.length := le_trans hk (runLen_le_length p s')
    intro hemp
    have : (s'.take k).length = k := List.length_take_of_le hkl
    rw [hemp] at this
    simp at this
    omega
  · rintro ⟨t, r, rfl, hall, hpos, hQ⟩
    refine ⟨t.length, le_runLen_append r hall, ?_, ?_⟩
    · intro hp
      have := hpos hp
      intro h0
      exact this (List.length_eq_zero.mp h0)
    · rw [List.drop_left]
      exact hQ

/-- The set of character strings one regex fragment can consume:
`\/part` consumes exactly `/part`; `\/([^\/]+)` a slash and a nonempty
slash-free run; `(?:\/([^\/]*)|\/)?` nothing or a slash and a slash-free
run; `(?:\/(.*)|\/)?` nothing or a slash and a newline-free run;
`\/?(.+)` an optional slash and a nonempty newline-free run; `\/?`
nothing or a slash. -/
def Seg : Chunk → List Char → Prop
  | Chunk.lit part, u => u = '/' :: part.data
  | Chunk.plain, u =>
    ∃ t, u = '/' :: t ∧ t ≠ [] ∧ ∀ c ∈ t, nonSlash c = true
  | Chunk.opt, u =>
    u = [] ∨ ∃ t, u = '/' :: t ∧ ∀ c ∈ t, nonSlash c = true
  | Chunk.star, u =>
    u = [] ∨ ∃ t, u = '/' :: t ∧ ∀ c ∈ t, dotChar c = true
  | Chunk.plus, u =>
    ∃ t, (u = '/' :: t ∨ u = t) ∧ t ≠ [] ∧ ∀ c ∈ t, dotChar c = true
  | Chunk.slashOpt, u => u = [] ∨ u = ['/']

/-- Sequential consumption of a string by a chunk list. -/
inductive Consumes : List Chunk → List Char → Prop
  | nil : Consumes [] []
  | cons {c : Chunk} {cs : List Chunk} {u v : List Char} :
      Seg c u → Consumes cs v → Consumes (c :: cs) (u ++ v)

/-- Acceptance by the full anchored regex `^ ... $`: the chunks consume a
prefix and the terminal `$` accepts the leftover `""` or `"\n"`. -/
def AcceptsProp (cs : List Chunk) (s : List Char) : Prop :=
  ∃ u w, s = u ++ w ∧ Consumes cs u ∧ (w = [] ∨ w = ['\n'])

theorem Consumes_nil_iff {u : List Char} : Consumes [] u ↔ u = [] := by
  constructor
  · intro h; cases h; rfl
  · intro h; rw [h]; exact Consumes.nil

theorem Consumes_cons_iff {c : Chunk} {cs : List Chunk} {u : List Char} :
    Consumes (c :: cs) u ↔
      ∃ u1 u2, u = u1 ++ u2 ∧ Seg c u1 ∧ Consumes cs u2 := by
  constructor
  · intro h
    cases h with
    | cons hseg hrest => exact ⟨_, _, rfl, hseg, hrest⟩
  · rintro ⟨u1, u2, rfl, hseg, h⟩
    exact Consumes.cons hseg h

theorem AcceptsProp_nil_iff {s : List Char} :
    AcceptsProp [] s ↔ (s = [] ∨ s = ['\n']) := by
  constructor
  · rintro ⟨u, w, rfl, hc, hw⟩
    rw [Consumes_nil_iff] at hc
    rw [hc]
    simpa using hw
  · intro h
    exact ⟨[], s, rfl, Consumes.nil, h⟩

theorem AcceptsProp_cons_iff {c : Chunk} {cs : List Chunk} {s : List Char} :
    AcceptsProp (c :: cs) s ↔
      ∃ u v, s = u ++ v ∧ Seg c u ∧ AcceptsProp cs v := by
  constructor
  · rintro ⟨u, w, rfl, hc, hw⟩
    rw [Consumes_cons_iff] at hc
    obtain ⟨u1, u2, rfl, hseg, h2⟩ := hc
    exact ⟨u1, u2 ++ w, by rw [List.append_assoc], hseg, u2, w, rfl, h2, hw⟩
  · rintro ⟨u, v, rfl, hseg, u2, w, rfl, hc, hw⟩
    exact ⟨u ++ u2, w, by rw [List.append_assoc], Consumes.cons hseg hc, hw⟩

theorem isSome_map {α β : Type} (f : α → β) (o : Option α) :
    ((o.map f).isSome) = o.isSome := by
  cases o <;> rfl

/-- The matcher's reduction on a `plain` chunk and a slash-headed input
(definitional). -/
theorem matchChunks_plain_slash (cs : List Chunk) (s' : List Char) :
    matchChunks (Chunk.plain :: cs) ('/' :: s') =
      firstSome
        (fun k =>
          if k = 0 then none
          else (matchChunks cs (s'.drop k)).map
            (fun gs => some (s'.take k) :: gs))
        (downFrom (runLen nonSlash s')) := rfl

theorem orElse2_isSome {β : Type} (x y : Option β) :
    ((orElse2 x y).isSome = true) ↔ (x.isSome = true ∨ y.isSome = true) := by
  cases x <;> simp [orElse2]

theorem orElse3_none_none {β : Type} (z : Option β) :
    orElse3 none none z = z := rfl

theorem orElse3_isSome {β : Type} (x y z : Option β) :
    ((orElse3 x y z).isSome = true) ↔
      (x.isSome = true ∨ y.isSome = true ∨ z.isSome = true) := by
  cases x <;> cases y <;> simp [orElse3, orElse2]

/-- The `(.+)` backtracking search of the `plus` chunk succeeds iff the
input splits as a nonempty newline-free prefix followed by a successful
remainder. -/
theorem plus_tryTail_isSome_iff (cs : List Chunk) (t : List Char) :
    ((firstSome
        (fun k =>
          if k = 0 then none
          else Option.map (fun gs => some (List.take k t) :: gs)
            (matchChunks cs (List.drop k t)))
        (downFrom (runLen dotChar t))).isSome = true) ↔
      ∃ t1 r, t = t1 ++ r ∧ t1 ≠ [] ∧ (∀ c ∈ t1, dotChar c = true) ∧
        (matchChunks cs r).isSome = true := by
  rw [firstSome_isSome_iff]
  constructor
  · rintro ⟨k, hk, hfk⟩
    by_cases hk0 : k = 0
    · rw [hk0] at hfk; simp at hfk
    · rw [if_neg hk0, isSome_map] at hfk
      obtain ⟨t1, r, hsr, hall, hne, hm⟩ :=
        (exists_take_drop_iff dotChar t true
          (fun r => (matchChunks cs r).isSome = true)).mp
          ⟨k, mem_downFrom.mp hk, fun _ => hk0, hfk⟩
      exact ⟨t1, r, hsr, hne rfl, hall, hm⟩
  · rintro ⟨t1, r, rfl, hne, hall, hm⟩
    obtain ⟨k, hk, hpos, hQ⟩ :=
      (exists_take_drop_iff dotChar (t1 ++ r) true
        (fun r => (matchChunks cs r).isSome = true)).mpr
        ⟨t1, r, rfl, hall, fun _ => hne, hm⟩
    refine ⟨k, mem_downFrom.mpr hk, ?_⟩
    rw [if_neg (hpos rfl), isSome_map]
    exact hQ

theorem matchChunks_isSome_iff :
    ∀ (cs : List Chunk) (s : List Char),
      ((matchChunks cs s).isSome = true ↔ AcceptsProp cs s) := by
  intro cs
  induction cs with
  | nil =>
    intro s
    rw [matchChunks, AcceptsProp_nil_iff]
    split
    · simp_all
    · simp_all
  | cons c cs ih =>
    intro s
    cases c with
    | lit part =>
      rw [matchChunks, AcceptsProp_cons_iff]
      constructor
      · intro h
        by_cases hp : (('/' :: part.data).isPrefixOf s) = true
        · rw [if_pos hp] at h
          obtain ⟨v, hv⟩ := List.isPrefixOf_iff_prefix.mp hp
          refine ⟨'/' :: part.data, v, hv.symm, rfl, ?_⟩
          rw [← hv, List.drop_left] at h
          exact (ih v).mp h
        · rw [if_neg hp] at h
          simp at h
      · rintro ⟨u, v, rfl, hseg, hacc⟩
        rw [show Seg (Chunk.lit part) u = (u = '/' :: part.data) from rfl] at hseg
        subst hseg
        rw [if_pos (isPrefixOf_append_self _ _), List.drop_left]
        exact (ih v).mpr hacc
    | plain =>
      rw [AcceptsProp_cons_iff]
      cases s with
      | nil =>
        rw [matchChunks]
        · constructor
          · intro h; simp at h
          · rintro ⟨u, v, hsplit, ⟨t, rfl, ht, hall⟩, hacc⟩
            simp at hsplit
        · intro s' h
          exact List.noConfusion h
      | cons a s' =>
        by_cases ha : a = '/'
        · subst ha
          rw [matchChunks_plain_slash, firstSome_isSome_iff]
          constructor
          · rintro ⟨k, hk, hfk⟩
            rw [mem_downFrom] at hk
            by_cases hk0 : k = 0
            · rw [hk0] at hfk; simp at hfk
            · rw [if_neg hk0, isSome_map] at hfk
              obtain ⟨t, r, hsr, hall, hne, hm⟩ :=
                (exists_take_drop_iff nonSlash s' true
                  (fun r => (matchChunks cs r).isSome = true)).mp
                  ⟨k, hk, fun _ => hk0, hfk⟩
              exact ⟨'/' :: t, r, by rw [hsr, List.cons_append],
                ⟨t, rfl, hne rfl, hall⟩, (ih r).mp hm⟩
          · rintro ⟨u, v, hsplit, ⟨t, rfl, hne, hall⟩, hacc⟩
            rw [List.cons_append] at hsplit
            injection hsplit with _ hs'
            obtain ⟨k, hk, hpos, hQ⟩ :=
              (exists_take_drop_iff nonSlash s' true
                (fun r => (matchChunks cs r).isSome = true)).mpr
                ⟨t, v, hs', hall, fun _ => hne, (ih v).mpr hacc⟩
            refine ⟨k, mem_downFrom.mpr hk, ?_⟩
            rw [if_neg (hpos rfl), isSome_map]
            exact hQ
        · rw [matchChunks]
          · constructor
            · intro h; simp at h
            · rintro ⟨u, v, hsplit, ⟨t, rfl, hne, hall⟩, hacc⟩
              rw [List.cons_append] at hsplit
              injection hsplit with h1 _
              exact absurd h1 ha
          · intro t h
            injection h with h1 _
            exact ha h1
    | opt =>
      rw [AcceptsProp_cons_iff]
      cases s with
      | nil =>
        rw [matchChunks]
        · rw [orElse3_none_none, isSome_map]
          constructor
          · intro h
            exact ⟨[], [], rfl, Or.inl rfl, (ih []).mp h⟩
          · rintro ⟨u, v, hsplit, hseg, hacc⟩
            obtain ⟨hu, hv⟩ := List.append_eq_nil.mp hsplit.symm
            subst hu
            subst hv
            exact (ih []).mpr hacc
        · intro t h
          exact List.noConfusion h
      | cons a s' =>
        by_cases ha : a = '/'
        · subst ha
          rw [matchChunks, orElse3_isSome]
          constructor
          · rintro (hA | hB | hC)
            · rw [firstSome_isSome_iff] at hA
              obtain ⟨k, hk, hfk⟩ := hA
              rw [isSome_map] at hfk
              obtain ⟨t, r, hsr, hall, _, hm⟩ :=
                (exists_take_drop_iff nonSlash s' false
                  (fun r => (matchChunks cs r).isSome = true)).mp
                  ⟨k, mem_downFrom.mp hk, by simp, hfk⟩
              exact ⟨'/' :: t, r, by rw [hsr, List.cons_append],
                Or.inr ⟨t, rfl, hall⟩, (ih r).mp hm⟩
            · rw [isSome_map] at hB
              exact ⟨['/'], s', rfl, Or.inr ⟨[], rfl, by simp⟩, (ih s').mp hB⟩
            · rw [isSome_map] at hC
              exact ⟨[], '/' :: s', rfl, Or.inl rfl, (ih _).mp hC⟩
          · rintro ⟨u, v, hsplit, hseg, hacc⟩
            rcases hseg with rfl | ⟨t, rfl, hall⟩
            · right; right
              rw [List.nil_append] at hsplit
              rw [isSome_map, hsplit]
              exact (ih _).mpr hacc
            · left
              rw [List.cons_append] at hsplit
              injection hsplit with _ hs2
              rw [firstSome_isSome_iff]
              obtain ⟨k, hk, _, hQ⟩ := (exists_take_drop_iff nonSlash s' false
                (fun r => (matchChunks cs r).isSome = true)).mpr
                ⟨t, v, hs2, hall, by simp, (ih v).mpr hacc⟩
              refine ⟨k, mem_downFrom.mpr hk, ?_⟩
              rw [isSome_map]
              exact hQ
        · rw [matchChunks]
          · rw [orElse3_none_none, isSome_map]
            constructor
            · intro h
              exact ⟨[], a :: s', rfl, Or.inl rfl, (ih _).mp h⟩
            · rintro ⟨u, v, hsplit, hseg, hacc⟩
              rcases hseg with rfl | ⟨t, rfl, hall⟩
              · rw [List.nil_append] at hsplit
                rw [hsplit]
                exact (ih _).mpr hacc
              · rw [List.cons_append] at hsplit
                injection hsplit with h1 _
                exact absurd h1 ha
          · intro t h
            injection h with h1 _
            exact ha h1
    | star =>
      rw [AcceptsProp_cons_iff]
      cases s with
      | nil =>
        rw [matchChunks]
        · rw [orElse3_none_none, isSome_map]
          constructor
          · intro h
            exact ⟨[], [], rfl, Or.inl rfl, (ih []).mp h⟩
          · rintro ⟨u, v, hsplit, hseg, hacc⟩
            obtain ⟨hu, hv⟩ := List.append_eq_nil.mp hsplit.symm
            subst hu
            subst hv
            exact (ih []).mpr hacc
        · intro t h
          exact List.noConfusion h
      | cons a s' =>
        by_cases ha : a = '/'
        · subst ha
          rw [matchChunks, orElse3_isSome]
          constructor
          · rintro (hA | hB | hC)
            · rw [firstSome_isSome_iff] at hA
              obtain ⟨k, hk, hfk⟩ := hA
              rw [isSome_map] at hfk
              obtain ⟨t, r, hsr, hall, _, hm⟩ :=
                (exists_take_drop_iff dotChar s' false
                  (fun r => (matchChunks cs r).isSome = true)).mp
                  ⟨k, mem_downFrom.mp hk, by simp, hfk⟩
              exact ⟨'/' :: t, r, by rw [hsr, List.cons_append],
                Or.inr ⟨t, rfl, hall⟩, (ih r).mp hm⟩
            · rw [isSome_map] at hB
              exact ⟨['/'], s', rfl, Or.inr ⟨[], rfl, by simp⟩, (ih s').mp hB⟩
            · rw [isSome_map] at hC
              exact ⟨[], '/' :: s', rfl, Or.inl rfl, (ih _).mp hC⟩
          · rintro ⟨u, v, hsplit, hseg, hacc⟩
            rcases hseg with rfl | ⟨t, rfl, hall⟩
            · right; right
              rw [List.nil_append] at hsplit
              rw [isSome_map, hsplit]
              exact (ih _).mpr hacc
            · left
              rw [List.cons_append] at hsplit
              injection hsplit with _ hs2
              rw [firstSome_isSome_iff]
              obtain ⟨k, hk, _, hQ⟩ := (exists_take_drop_iff dotChar s' false
                (fun r => (matchChunks cs r).isSome = true)).mpr
                ⟨t, v, hs2, hall, by simp, (ih v).mpr hacc⟩
              refine ⟨k, mem_downFrom.mpr hk, ?_⟩
              rw [isSome_map]
              exact hQ
        · rw [matchChunks]
          · rw [orElse3_none_none, isSome_map]
            constructor
            · intro h
              exact ⟨[], a :: s', rfl, Or.inl rfl, (ih _).mp h⟩
            · rintro ⟨u, v, hsplit, hseg, hacc⟩
              rcases hseg with rfl | ⟨t, rfl, hall⟩
              · rw [List.nil_append] at hsplit
                rw [hsplit]
                exact (ih _).mpr hacc
              · rw [List.cons_append] at hsplit
                injection hsplit with h1 _
                exact absurd h1 ha
          · intro t h
            injection h with h1 _
            exact ha h1
    | plus =>
      rw [AcceptsProp_cons_iff]
      cases s with
      | nil =>
        rw [matchChunks]
        · simp only [orElse2_isSome, Option.isSome_none, Bool.false_eq_true,
            false_or, plus_tryTail_isSome_iff]
          constructor
          · rintro ⟨t1, r, hsr, hne, _, _⟩
            obtain ⟨h1, _⟩ := List.append_eq_nil.mp hsr.symm
            exact absurd h1 hne
          · rintro ⟨u, v, hsplit, ⟨t1, hu, hne, _⟩, _⟩
            obtain ⟨h1, _⟩ := List.append_eq_nil.mp hsplit.symm
            rcases hu with hu | hu <;> rw [hu] at h1
            · exact List.noConfusion h1
            · exact absurd h1 hne
        · intro t h
          exact List.noConfusion h
      | cons a s' =>
        by_cases ha : a = '/'
        · subst ha
          rw [matchChunks]
          simp only [orElse2_isSome, plus_tryTail_isSome_iff]
          constructor
          · rintro (⟨t1, r, hsr, hne, hall, hm⟩ | ⟨t1, r, hsr, hne, hall, hm⟩)
            · exact ⟨'/' :: t1, r, by rw [hsr, List.cons_append],
                ⟨t1, Or.inl rfl, hne, hall⟩, (ih r).mp hm⟩
            · exact ⟨t1, r, hsr, ⟨t1, Or.inr rfl, hne, hall⟩, (ih r).mp hm⟩
          · rintro ⟨u, v, hsplit, ⟨t1, hu | hu, hne, hall⟩, hacc⟩
            · subst hu
              rw [List.cons_append] at hsplit
              injection hsplit with _ hs2
              exact Or.inl ⟨t1, v, hs2, hne, hall, (ih v).mpr hacc⟩
            · rw [hu] at hsplit
              exact Or.inr ⟨t1, v, hsplit, hne, hall, (ih v).mpr hacc⟩
        · rw [matchChunks]
          · simp only [orElse2_isSome, Option.isSome_none, Bool.false_eq_true,
              false_or, plus_tryTail_isSome_iff]
            constructor
            · rintro ⟨t1, r, hsr, hne, hall, hm⟩
              exact ⟨t1, r, hsr, ⟨t1, Or.inr rfl, hne, hall⟩, (ih r).mp hm⟩
            · rintro ⟨u, v, hsplit, ⟨t1, hu | hu, hne, hall⟩, hacc⟩
              · subst hu
                rw [List.cons_append] at hsplit
                injection hsplit with h1 _
                exact absurd h1 ha
              · rw [hu] at hsplit
                exact ⟨t1, v, hsplit, hne, hall, (ih v).mpr hacc⟩
          · intro t h
            injection h with h1 _
            exact ha h1
    | slashOpt =>
      rw [AcceptsProp_cons_iff]
      cases s with
      | nil =>
        rw [matchChunks]
        · rw [show orElse2 none (matchChunks cs []) = matchChunks cs [] from rfl]
          constructor
          · intro h
            exact ⟨[], [], rfl, Or.inl rfl, (ih []).mp h⟩
          · rintro ⟨u, v, hsplit, hseg, hacc⟩
            obtain ⟨hu, hv⟩ := List.append_eq_nil.mp hsplit.symm
            subst hu
            subst hv
            exact (ih []).mpr hacc
        · intro t h
          exact List.noConfusion h
      | cons a s' =>
        by_cases ha : a = '/'
        · subst ha
          rw [matchChunks, orElse2_isSome]
          constructor
          · rintro (hA | hB)
            · exact ⟨['/'], s', rfl, Or.inr rfl, (ih s').mp hA⟩
            · exact ⟨[], '/' :: s', rfl, Or.inl rfl, (ih _).mp hB⟩
          · rintro ⟨u, v, hsplit, rfl | rfl, hacc⟩
            · right
              rw [List.nil_append] at hsplit
              rw [hsplit]
              exact (ih _).mpr hacc
            · left
              rw [List.cons_append, List.nil_append] at hsplit
              injection hsplit with _ hs2
              rw [hs2]
              exact (ih _).mpr hacc
        · rw [matchChunks]
          · rw [show orElse2 none (matchChunks cs (a :: s')) =
              matchChunks cs (a :: s') from rfl]
            constructor
            · intro h
              exact ⟨[], a :: s', rfl, Or.inl rfl, (ih _).mp h⟩
            · rintro ⟨u, v, hsplit, rfl | rfl, hacc⟩
              · rw [List.nil_append] at hsplit
                rw [hsplit]
                exact (ih _).mpr hacc
              · rw [List.cons_append, List.nil_append] at hsplit
                injection hsplit with h1 _
                exact absurd h1 ha
          · intro t h
            injection h with h1 _
            exact ha h1

theorem one_le_length_of_ne_empty {p : String} (h : p ≠ "") : 1 ≤ p.length := by
  cases p with
  | mk data =>
    cases data with
    | nil => exact absurd rfl h
    | cons a as => simp [String.length]

/-- Every chunk the compilation loop emits contributes a regex fragment of
at least three characters (the pattern's segments are nonempty). -/
theorem compileParts_chunk_len (pattern : String) :
    ∀ (parts : List String) (final : Bool) (cs : List Chunk) (ts : List String),
    compileParts pattern parts final = .ok (cs, ts) →
    (∀ p ∈ parts, p ≠ "") →
    ∀ c ∈ cs, 3 ≤ c.str.length := by
  intro parts
  induction parts with
  | nil =>
    intro final cs ts h _
    rw [compileParts] at h
    injection h with h2
    injection h2 with h3 _
    rw [← h3]
    intro c hc
    exact absurd hc (List.not_mem_nil c)
  | cons part rest ih =>
    intro final cs ts h hne
    have hne' : ∀ p ∈ rest, p ≠ "" :=
      fun p hp => hne p (List.mem_cons_of_mem part hp)
    rw [compileParts] at h
    by_cases hs : pyStartsWith part ":"
    · rw [if_pos hs] at h
      by_cases hq : pyLastChar part = '?'
      · rw [if_pos hq] at h
        cases final with
        | true => simp at h
        | false =>
          rcases hrec : compileParts pattern rest true with e | ⟨cs', ts'⟩ <;>
            rw [hrec] at h <;> simp at h
          obtain ⟨h1, _⟩ := h
          rw [← h1]
          intro c hc
          rcases List.mem_cons.mp hc with rfl | hc
          · decide
          · exact ih true cs' ts' hrec hne' c hc
      · rw [if_neg hq] at h
        by_cases hst : pyLastChar part = '*'
        · rw [if_pos hst] at h
          cases final with
          | true => simp at h
          | false =>
            rcases hrec : compileParts pattern rest true with e | ⟨cs', ts'⟩ <;>
              rw [hrec] at h <;> simp at h
            obtain ⟨h1, _⟩ := h
            rw [← h1]
            intro c hc
            rcases List.mem_cons.mp hc with rfl | hc
            · decide
            · exact ih true cs' ts' hrec hne' c hc
        · rw [if_neg hst] at h
          by_cases hp : pyLastChar part = '+'
          · rw [if_pos hp] at h
            cases final with
            | true => simp at h
            | false =>
              rcases hrec : compileParts pattern rest true with e | ⟨cs', ts'⟩ <;>
                rw [hrec] at h <;> simp at h
              obtain ⟨h1, _⟩ := h
              rw [← h1]
              intro c hc
              rcases List.mem_cons.mp hc with rfl | hc
              · decide
              · exact ih true cs' ts' hrec hne' c hc
          · rw [if_neg hp] at h
            rcases hrec : compileParts pattern rest final with e | ⟨cs', ts'⟩ <;>
              rw [hrec] at h <;> simp at h
            obtain ⟨h1, _⟩ := h
            rw [← h1]
            intro c hc
            rcases List.mem_cons.mp hc with rfl | hc
            · decide
            · exact ih final cs' ts' hrec hne' c hc
    · rw [if_neg hs] at h
      rcases hrec : compileParts pattern rest final with e | ⟨cs', ts'⟩ <;>
        rw [hrec] at h <;> simp at h
      obtain ⟨h1, _⟩ := h
      rw [← h1]
      intro c hc
      rcases List.mem_cons.mp hc with rfl | hc
      · rw [Chunk.str, String.length_append]
        have := one_le_length_of_ne_empty (hne part (List.mem_cons_self part rest))
        have h2 : ("\\/" : String).length = 2 := by decide
        omega
      · exact ih final cs' ts' hrec hne' c hc

/-- The url-pattern segments are nonempty (empty fields are filtered). -/
theorem splitPatternParts_ne_empty (pattern : String) :
    ∀ p ∈ splitPatternParts pattern, p ≠ "" := by
  intro p hp
  rw [splitPatternParts, List.mem_filter] at hp
  exact of_decide_eq_true hp.2

/-- Every compiled matcher ends with the trailing-slash fragment `\/?`:
the guard `re_str != "^\\/"` never fails, because the segment fragments
are each at least three characters long. -/
theorem patternToRegex_ends_slashOpt (pattern : String) (cs : List Chunk)
    (ts : List String) (h : patternToRegex pattern = .ok (cs, ts)) :
    ∃ cs0, cs = cs0 ++ [Chunk.slashOpt] := by
  rw [patternToRegex] at h
  rcases hrec : compileParts pattern (splitPatternParts pattern) false
    with e | ⟨cs0, ts0⟩ <;> rw [hrec] at h
  · simp at h
  · have hcond : "^" ++ chunksStr cs0 ≠ "^\\/" := by
      intro heq
      have hlen := congrArg String.length heq
      rw [String.length_append] at hlen
      have h1 : ("^" : String).length = 1 := by decide
      have h3 : ("^\\/" : String).length = 3 := by decide
      cases cs0 with
      | nil =>
        rw [show chunksStr [] = "" from rfl] at hlen
        rw [h1, h3] at hlen
        simp [String.length] at hlen
      | cons c cs' =>
        have hc := compileParts_chunk_len pattern (splitPatternParts pattern)
          false (c :: cs') ts0 hrec (splitPatternParts_ne_empty pattern) c
          (List.mem_cons_self c cs')
        rw [show chunksStr (c :: cs') = c.str ++ chunksStr cs' from rfl,
          String.length_append] at hlen
        omega
    have h' : (Except.ok
        ((if "^" ++ chunksStr cs0 ≠ "^\\/" then cs0 ++ [Chunk.slashOpt] else cs0),
          ts0) : Except String (List Chunk × List String)) =
        Except.ok (cs, ts) := h
    rw [if_pos hcond] at h'
    injection h' with h2
    injection h2 with hcs _
    exact ⟨cs0, hcs.symm⟩

/-- Chaining consumptions across an append of chunk lists. -/
theorem Consumes_append {cs ds : List Chunk} {u v : List Char}
    (h1 : Consumes cs u) (h2 : Consumes ds v) :
    Consumes (cs ++ ds) (u ++ v) := by
  induction h1 with
  | nil => exact h2
  | cons hseg _ ih =>
    rw [List.cons_append, List.append_assoc]
    exact Consumes.cons hseg ih

/-- Splitting a consumption at an append of chunk lists. -/
theorem Consumes_append_split {ds : List Chunk} :
    ∀ {cs : List Chunk} {u : List Char}, Consumes (cs ++ ds) u →
      ∃ u1 u2, u = u1 ++ u2 ∧ Consumes cs u1 ∧ Consumes ds u2 := by
  intro cs
  induction cs with
  | nil =>
    intro u h
    exact ⟨[], u, rfl, Consumes.nil, h⟩
  | cons c cs' ih =>
    intro u h
    rw [List.cons_append, Consumes_cons_iff] at h
    obtain ⟨w1, w2, rfl, hseg, hrest⟩ := h
    obtain ⟨u1, u2, rfl, hc1, hc2⟩ := ih hrest
    exact ⟨w1 ++ u1, u2, by rw [List.append_assoc], Consumes.cons hseg hc1, hc2⟩

/-- C10 (amended): every compiled matcher tolerates one added trailing
slash — for every pattern that compiles and every accepted path `p` that
ends neither in `'/'` nor in a newline, `p ++ "/"` is also accepted.  (The
newline exclusion is forced by Python's `$`, which also matches just
before a terminal newline: `/abc` accepts the path `"/abc\n"` but not
`"/abc\n/"`.) -/
theorem c10_matcher_tolerates_trailing_slash (pattern : String)
    (cs : List Chunk) (ts : List String) (p : List Char)
    (hc : patternToRegex pattern = .ok (cs, ts))
    (hm : (matchChunks cs p).isSome = true)
    (h1 : p.getLast? ≠ some '/') (h2 : p.getLast? ≠ some '\n') :
    (matchChunks cs (p ++ ['/'])).isSome = true := by
  obtain ⟨cs0, rfl⟩ := patternToRegex_ends_slashOpt pattern cs ts hc
  rw [matchChunks_isSome_iff] at hm ⊢
  obtain ⟨u, w, rfl, hcons, hw⟩ := hm
  obtain ⟨u1, u2, rfl, hc1, hc2⟩ := Consumes_append_split hcons
  have hu2 : u2 = [] ∨ u2 = ['/'] := by
    rw [Consumes_cons_iff] at hc2
    obtain ⟨x, y, rfl, hseg, hnil⟩ := hc2
    rw [Consumes_nil_iff] at hnil
    subst hnil
    rcases hseg with rfl | rfl
    · left; rfl
    · right; rfl
  rcases hw with rfl | rfl
  · rcases hu2 with rfl | rfl
    · refine ⟨u1 ++ ['/'], [], by simp, ?_, Or.inl rfl⟩
      exact Consumes_append hc1
        (Consumes.cons (show Seg Chunk.slashOpt ['/'] from Or.inr rfl)
          Consumes.nil)
    · exfalso
      apply h1
      rw [List.append_nil]
      exact List.getLast?_concat u1
  · exfalso
    apply h2
    exact List.getLast?_concat (u1 ++ u2)

/-- C10 counterexample: under pattern `/abc`, the path `"/abc\n"` — which
does not end in a slash — is accepted (Python's `$` matches before the
terminal newline), but `"/abc\n" ++ "/"` is rejected; the claim as stated
over all accepted paths is therefore false. -/
theorem c10_counterexample_newline_path :
    patternToRegex "/abc" = .ok ([Chunk.lit "abc", Chunk.slashOpt], []) ∧
    (matchChunks [Chunk.lit "abc", Chunk.slashOpt] "/abc\n".data).isSome = true ∧
    "/abc\n".data.getLast? ≠ some '/' ∧
    (matchChunks [Chunk.lit "abc", Chunk.slashOpt]
      ("/abc\n".data ++ ['/'])).isSome = false := by
  refine ⟨by rfl, by rfl, by decide, by rfl⟩

/-- Witness for C10 at a concrete input: `/abc` accepts `"/abc"`, which
ends in neither slash nor newline, so it also accepts `"/abc/"`. -/
theorem c10_matcher_tolerates_trailing_slash_witness :
    (matchChunks [Chunk.lit "abc", Chunk.slashOpt]
      ("/abc".data ++ ['/'])).isSome = true :=
  c10_matcher_tolerates_trailing_slash "/abc" [Chunk.lit "abc", Chunk.slashOpt]
    [] "/abc".data rfl (by rfl) (by decide) (by decide)
